import Mathlib

/-!
Verification of `volk_32f_sin_32f.h` (VOLK sine kernels).

Shallow embedding of the kernels in `src/kernels/volk/volk_32f_sin_32f.h`.

Machine `float` arithmetic is modelled by exact rational arithmetic (`ℚ`);
the two library functions the kernels call into the platform — the hardware
square root behind `_mm_sqrt_ps` and the C library `sin` used by the scalar
path — are abstract parameters `sqrtf sinf : ℚ → ℚ`, since neither is defined
in this repository.  The 32-bit integer lanes (`__m128i`/`__m256i`) are
modelled by `ℤ`; every value stored in them here is the floor of a
non-negative product, so no wrap-around can occur.

Buffers are modelled as total maps `ℕ → ℚ`; a kernel takes the initial
contents of the output buffer `bVector`, the input buffer `aVector` and
`num_points`, and returns the final contents of the output buffer, so frame
properties ("indices never written keep their old value") are expressible.

All SSE/AVX arithmetic intrinsics used by the kernels are lane-wise, so the
body of the vectorised loop is embedded as a per-lane scalar function
(`sinLane`, `sinLaneFma`) applied to each of the W lanes of a group.
-/

namespace Volk

/-! ## Constants (lines 97-112 / 249-264 and the copies in the other kernels) -/

/-- Constant `m4pi = _mm_set1_ps(1.273239545)`: the kernels' finite-precision value of 4/π. -/
def m4pi : ℚ := 1.273239545

/-- Constant `pio4A = _mm_set1_ps(0.78515625)`: high part of the split π/4 constant. -/
def pio4A : ℚ := 0.78515625

/-- Constant `pio4B = _mm_set1_ps(0.241876e-3)`: low part of the split π/4 constant. -/
def pio4B : ℚ := 0.241876e-3

/-- Constant `cp1 = _mm_set1_ps(1.0)`. -/
def cp1 : ℚ := 1.0

/-- Constant `cp2 = _mm_set1_ps(0.83333333e-1)`. -/
def cp2 : ℚ := 0.83333333e-1

/-- Constant `cp3 = _mm_set1_ps(0.2777778e-2)`. -/
def cp3 : ℚ := 0.2777778e-2

/-- Constant `cp4 = _mm_set1_ps(0.49603e-4)`. -/
def cp4 : ℚ := 0.49603e-4

/-- Constant `cp5 = _mm_set1_ps(0.551e-6)`. -/
def cp5 : ℚ := 0.551e-6

/-! ## Per-lane computation of the vector loop body (lines 267-294 of the
SSE4.1 kernel; the AVX2 kernels, lines 191-218 / 425-452, run the same
lane-wise operations at width 8, `_mm256_cmp_ps(..,1)` being `LT_OS`, i.e.
the same predicate as `_mm_cmplt_ps`, and `_mm256_cmp_ps(..,4)` being
`NEQ_UQ`, the same predicate as `_mm_cmpneq_ps`). -/

/-- Line 268: `s = _mm_sub_ps(aVal, _mm_and_ps(_mm_mul_ps(aVal, ftwos), _mm_cmplt_ps(aVal, fzeroes)))`.
The compare produces an all-ones mask exactly on the lanes with `aVal < 0`;
ANDing `2*aVal` with it yields `2*aVal` there and `+0.0` elsewhere. -/
def absStep (x : ℚ) : ℚ := x - (if x < 0 then x * 2 else 0)

/-- Line 269: `q = _mm_cvtps_epi32(_mm_floor_ps(_mm_mul_ps(s, m4pi)))`.
The inner `floor` makes the value integral, so the (round-to-nearest)
`cvtps_epi32` conversion is exact. -/
def q0 (x : ℚ) : ℤ := ⌊absStep x * m4pi⌋

/-- Line 270: `r = _mm_add_epi32(q, _mm_and_si128(q, ones))`. -/
def rIdx (x : ℚ) : ℤ := q0 x + Int.land (q0 x) 1

/-- Lines 272-273: `s = _mm_sub_ps(s, _mm_mul_ps(_mm_cvtepi32_ps(r), pio4A));`
`s = _mm_sub_ps(s, _mm_mul_ps(_mm_cvtepi32_ps(r), pio4B));`. -/
def reduced (x : ℚ) : ℚ := (absStep x - (rIdx x : ℚ) * pio4A) - (rIdx x : ℚ) * pio4B

/-- Line 278: the nested multiply/add/sub chain
`((((s*cp5 - cp4)*s + cp3)*s - cp2)*s + cp1)*s` evaluated at `s := s*s`. -/
def polyHorner (t : ℚ) : ℚ := ((((t * cp5 - cp4) * t + cp3) * t - cp2) * t + cp1) * t

/-- Lines 280-282: one step of the loop `s = _mm_mul_ps(s, _mm_sub_ps(ffours, s))`. -/
def dbl (t : ℚ) : ℚ := t * (4 - t)

/-- Lines 275-283: `s = s/8`, `s = s*s`, the Taylor chain of line 278, the
three `dbl` iterations and the final `s = s/2`. -/
def tVal (x : ℚ) : ℚ :=
  dbl (dbl (dbl (polyHorner ((reduced x / 8) * (reduced x / 8))))) / 2

/-- Line 285: `sine = _mm_sqrt_ps(_mm_mul_ps(_mm_sub_ps(ftwos, s), s))`. -/
def sineReduced (sqrtf : ℚ → ℚ) (x : ℚ) : ℚ := sqrtf ((2 - tVal x) * tVal x)

/-- Line 286: `cosine = _mm_sub_ps(fones, s)`. -/
def cosineReduced (x : ℚ) : ℚ := 1 - tVal x

/-- Line 288: `condition1 = _mm_cmpneq_ps(_mm_cvtepi32_ps(_mm_and_si128(_mm_add_epi32(q, ones), twos)), fzeroes)`.
Both compare operands are genuine numbers (`0.0` or `2.0`), so `NEQ_UQ` is a
plain inequality test: the lane mask is set exactly when `(q+1) & 2 ≠ 0`. -/
abbrev condition1 (x : ℚ) : Prop := Int.land (q0 x + 1) 2 ≠ 0

/-- Line 289: `condition2 = _mm_cmpneq_ps(_mm_cmpneq_ps(_mm_cvtepi32_ps(_mm_and_si128(q, fours)), fzeroes), _mm_cmplt_ps(aVal, fzeroes))`.
The two inner compares produce lane masks, `0x00000000` (which is `+0.0f`)
or `0xFFFFFFFF` (which, read as a float, is a quiet NaN: exponent all ones,
non-zero mantissa).  The outer `_mm_cmpneq_ps` is `CMPPS` with predicate
`NEQ_UQ` (not-equal, unordered operands give *true*), so it is true when the
two masks differ and ALSO when both are `0xFFFFFFFF` (NaN vs NaN is
unordered).  The lane predicate is therefore the inclusive OR
`(q & 4 ≠ 0) ∨ (aVal < 0)`, not the exclusive or of the two masks. -/
abbrev condition2 (x : ℚ) : Prop := Int.land (q0 x) 4 ≠ 0 ∨ x < 0

/-- Line 293: `sine = _mm_add_ps(sine, _mm_and_ps(_mm_sub_ps(cosine, sine), condition1))`:
the mask AND contributes `cosine - sine` on lanes where `condition1` holds
and `+0.0` elsewhere. -/
def blendVal (sqrtf : ℚ → ℚ) (x : ℚ) : ℚ :=
  sineReduced sqrtf x + (if condition1 x then cosineReduced x - sineReduced sqrtf x else 0)

/-- Line 294: `sine = _mm_sub_ps(sine, _mm_and_ps(_mm_mul_ps(sine, _mm_set1_ps(2.0f)), condition2))`,
followed by the store of line 295: the per-lane value written to `bVector`. -/
def sinLane (sqrtf : ℚ → ℚ) (x : ℚ) : ℚ :=
  blendVal sqrtf x - (if condition2 x then blendVal sqrtf x * 2 else 0)

/-! ## FMA variant of the lane body (lines 114-143 / 348-377).
`_mm256_fnmadd_ps(a,b,c) = c - a*b`, `_mm256_fmadd_ps(a,b,c) = a*b + c`,
`_mm256_fmsub_ps(a,b,c) = a*b - c`; in exact arithmetic fusing does not
change the value, but the expressions are embedded as written. -/

/-- Fused operation `_mm256_fmadd_ps(a,b,c) = a*b + c`. -/
def fmadd (a b c : ℚ) : ℚ := a * b + c

/-- Fused operation `_mm256_fmsub_ps(a,b,c) = a*b - c`. -/
def fmsub (a b c : ℚ) : ℚ := a * b - c

/-- Fused operation `_mm256_fnmadd_ps(a,b,c) = -(a*b) + c`. -/
def fnmadd (a b c : ℚ) : ℚ := -(a * b) + c

/-- Lines 120-121: `s = _mm256_fnmadd_ps(cvtepi32_ps(r), pio4A, s);`
`s = _mm256_fnmadd_ps(cvtepi32_ps(r), pio4B, s);`. -/
def reducedFma (x : ℚ) : ℚ := fnmadd (rIdx x : ℚ) pio4B (fnmadd (rIdx x : ℚ) pio4A (absStep x))

/-- Line 126: `mul(fmadd(fmsub(fmadd(fmsub(s, cp5, cp4), s, cp3), s, cp2), s, cp1), s)`. -/
def polyHornerFma (t : ℚ) : ℚ := fmadd (fmsub (fmadd (fmsub t cp5 cp4) t cp3) t cp2) t cp1 * t

/-- Lines 123-131 of the FMA kernel: `s/8`, `s*s`, the fused Taylor chain,
three doubling steps, `s/2`. -/
def tValFma (x : ℚ) : ℚ :=
  dbl (dbl (dbl (polyHornerFma ((reducedFma x / 8) * (reducedFma x / 8))))) / 2

/-- Lines 133-142 of the FMA kernel: sqrt/cosine recovery, the `condition1`
blend and the `condition2` negation (the conditions are computed from `q` and
`aVal` exactly as in the non-FMA kernels). -/
def sinLaneFma (sqrtf : ℚ → ℚ) (x : ℚ) : ℚ :=
  (sqrtf ((2 - tValFma x) * tValFma x)
      + (if condition1 x then (1 - tValFma x) - sqrtf ((2 - tValFma x) * tValFma x) else 0))
    - (if condition2 x then
        (sqrtf ((2 - tValFma x) * tValFma x)
            + (if condition1 x then (1 - tValFma x) - sqrtf ((2 - tValFma x) * tValFma x) else 0)) * 2
      else 0)

/-! ## Buffers and loops -/

/-- Sequential stores `b[base+0], b[base+1], ..., b[base+count-1] := f (a _)`.
This models both a W-lane vector store of lane-wise results (the lanes of one
group are disjoint slots of `bVector`) and the scalar loops
`for(; number < num_points; number++) *bPtr++ = sin(*aPtr++)`. -/
def writeLanes (f : ℚ → ℚ) (a : ℕ → ℚ) (base : ℕ) : ℕ → (ℕ → ℚ) → (ℕ → ℚ)
  | 0, b => b
  | count + 1, b =>
      Function.update (writeLanes f a base count b) (base + count) (f (a (base + count)))

/-- The vectorised loop: `groups` iterations, iteration `g` loading lanes
`W*g .. W*g+W-1` of `aVector`, computing `lane` on each and storing the
results to the same slots of `bVector`. -/
def vecLoop (W : ℕ) (lane : ℚ → ℚ) (a : ℕ → ℚ) : ℕ → (ℕ → ℚ) → (ℕ → ℚ)
  | 0, b => b
  | groups + 1, b => writeLanes lane a (W * groups) W (vecLoop W lane a groups b)

/-! ## The kernels (entry points) -/

/-- Lines 544-555: `volk_32f_sin_32f_generic` — the scalar loop
`for(number = 0; number < num_points; number++) *bPtr++ = sin(*aPtr++);`. -/
def volk_32f_sin_32f_generic (sinf : ℚ → ℚ) (bVector aVector : ℕ → ℚ)
    (num_points : ℕ) : ℕ → ℚ :=
  writeLanes sinf aVector 0 num_points bVector

/-- Lines 235-304: `volk_32f_sin_32f_a_sse4_1` — `quarterPoints = num_points/4`
vector groups of width 4 (lines 266-298), then the scalar tail loop from
`number = quarterPoints*4` to `num_points` (lines 300-303). -/
def volk_32f_sin_32f_a_sse4_1 (sqrtf sinf : ℚ → ℚ) (bVector aVector : ℕ → ℚ)
    (num_points : ℕ) : ℕ → ℚ :=
  writeLanes sinf aVector (num_points / 4 * 4) (num_points - num_points / 4 * 4)
    (vecLoop 4 (sinLane sqrtf) aVector (num_points / 4) bVector)

/-- Lines 470-537: `volk_32f_sin_32f_u_sse4_1` — identical arithmetic to the
aligned kernel; `_mm_loadu_ps`/`_mm_storeu_ps` replace `_mm_load_ps`/`_mm_store_ps`,
which only relaxes the alignment precondition, invisible in this model. -/
def volk_32f_sin_32f_u_sse4_1 (sqrtf sinf : ℚ → ℚ) (bVector aVector : ℕ → ℚ)
    (num_points : ℕ) : ℕ → ℚ :=
  writeLanes sinf aVector (num_points / 4 * 4) (num_points - num_points / 4 * 4)
    (vecLoop 4 (sinLane sqrtf) aVector (num_points / 4) bVector)

/-- Lines 159-228: `volk_32f_sin_32f_a_avx2` — `eighthPoints = num_points/8`
groups of width 8, same lane arithmetic, then the scalar tail loop. -/
def volk_32f_sin_32f_a_avx2 (sqrtf sinf : ℚ → ℚ) (bVector aVector : ℕ → ℚ)
    (num_points : ℕ) : ℕ → ℚ :=
  writeLanes sinf aVector (num_points / 8 * 8) (num_points - num_points / 8 * 8)
    (vecLoop 8 (sinLane sqrtf) aVector (num_points / 8) bVector)

/-- Lines 393-462: `volk_32f_sin_32f_u_avx2` — unaligned loads/stores,
otherwise identical to the aligned AVX2 kernel. -/
def volk_32f_sin_32f_u_avx2 (sqrtf sinf : ℚ → ℚ) (bVector aVector : ℕ → ℚ)
    (num_points : ℕ) : ℕ → ℚ :=
  writeLanes sinf aVector (num_points / 8 * 8) (num_points - num_points / 8 * 8)
    (vecLoop 8 (sinLane sqrtf) aVector (num_points / 8) bVector)

/-- Lines 83-152: `volk_32f_sin_32f_a_avx2_fma` — width 8 with fused
multiply-adds in the reduction and polynomial, then the scalar tail loop. -/
def volk_32f_sin_32f_a_avx2_fma (sqrtf sinf : ℚ → ℚ) (bVector aVector : ℕ → ℚ)
    (num_points : ℕ) : ℕ → ℚ :=
  writeLanes sinf aVector (num_points / 8 * 8) (num_points - num_points / 8 * 8)
    (vecLoop 8 (sinLaneFma sqrtf) aVector (num_points / 8) bVector)

/-- Lines 317-386: `volk_32f_sin_32f_u_avx2_fma` — unaligned loads/stores,
otherwise identical to the aligned FMA kernel. -/
def volk_32f_sin_32f_u_avx2_fma (sqrtf sinf : ℚ → ℚ) (bVector aVector : ℕ → ℚ)
    (num_points : ℕ) : ℕ → ℚ :=
  writeLanes sinf aVector (num_points / 8 * 8) (num_points - num_points / 8 * 8)
    (vecLoop 8 (sinLaneFma sqrtf) aVector (num_points / 8) bVector)

/-! ## Loop lemmas -/

theorem writeLanes_at (f : ℚ → ℚ) (a : ℕ → ℚ) (base : ℕ) :
    ∀ (count : ℕ) (b : ℕ → ℚ) (k : ℕ), k < count →
      writeLanes f a base count b (base + k) = f (a (base + k)) := by
  intro count
  induction count with
  | zero => exact fun b k hk => absurd hk (Nat.not_lt_zero k)
  | succ c ih =>
      intro b k hk
      show Function.update (writeLanes f a base c b) (base + c) (f (a (base + c))) (base + k) = _
      by_cases hkc : k = c
      · subst hkc; rw [Function.update_same]
      · rw [Function.update_noteq (by omega)]
        exact ih b k (by omega)

theorem writeLanes_tail (f : ℚ → ℚ) (a : ℕ → ℚ) (base n : ℕ) (b : ℕ → ℚ) (i : ℕ)
    (h1 : base ≤ i) (h2 : i < n) :
    writeLanes f a base (n - base) b i = f (a i) := by
  obtain ⟨k, rfl⟩ : ∃ k, i = base + k := ⟨i - base, by omega⟩
  exact writeLanes_at f a base (n - base) b k (by omega)

/-! ## Evaluation of the reduction pipeline at concrete inputs -/

theorem absStep_half : absStep (1 / 2 : ℚ) = 1 / 2 := by
  simp only [absStep, if_neg (by norm_num : ¬(1 / 2 : ℚ) < 0)]
  norm_num

theorem q0_half : q0 (1 / 2 : ℚ) = 0 := by
  simp only [q0, absStep_half, m4pi]
  rw [Int.floor_eq_iff]
  norm_num

theorem rIdx_half : rIdx (1 / 2 : ℚ) = 0 := by
  simp only [rIdx, q0_half]; decide

theorem reduced_half : reduced (1 / 2 : ℚ) = 1 / 2 := by
  simp only [reduced, absStep_half, rIdx_half]; norm_num

theorem absStep_one : absStep (1 : ℚ) = 1 := by
  simp only [absStep, if_neg (by norm_num : ¬(1 : ℚ) < 0)]
  norm_num

theorem q0_one : q0 (1 : ℚ) = 1 := by
  simp only [q0, absStep_one, m4pi]
  rw [Int.floor_eq_iff]
  norm_num

theorem rIdx_one : rIdx (1 : ℚ) = 2 := by
  simp only [rIdx, q0_one]; decide

theorem reduced_one : reduced (1 : ℚ) = -(570796252 / 1000000000 : ℚ) := by
  simp only [reduced, absStep_one, rIdx_one, pio4A, pio4B]
  norm_num

theorem absStep_neg_four : absStep (-4 : ℚ) = 4 := by
  simp only [absStep, if_pos (by norm_num : (-4 : ℚ) < 0)]
  norm_num

theorem q0_neg_four : q0 (-4 : ℚ) = 5 := by
  simp only [q0, absStep_neg_four, m4pi]
  rw [Int.floor_eq_iff]
  norm_num

theorem rIdx_neg_four : rIdx (-4 : ℚ) = 6 := by
  simp only [rIdx, q0_neg_four]; decide

theorem reduced_neg_four : reduced (-4 : ℚ) = -(712388756 / 1000000000 : ℚ) := by
  simp only [reduced, absStep_neg_four, rIdx_neg_four, pio4A, pio4B]
  norm_num

/-! ## Spec-side definitions (for the refinement comparisons) -/

/-- The §4.2 polynomial as the claim states it: the same Horner nesting as
`polyHorner` but with the spec's literal coefficients
1, 0.0833333, 0.0027778, 0.0000496, 0.000000551. -/
def specPolyHorner (t : ℚ) : ℚ :=
  ((((t * 0.000000551 - 0.0000496) * t + 0.0027778) * t - 0.0833333) * t + 1) * t

/-- The claimed §4.2 pipeline (divide by 8, square, claimed polynomial, three
doubling steps, divide by 2) with the spec's literal coefficients. -/
def specTVal (x : ℚ) : ℚ :=
  dbl (dbl (dbl (specPolyHorner ((reduced x / 8) * (reduced x / 8))))) / 2

/-! ## Claim theorems -/

/-- C2: for every input buffer and every index `i < num_points`, the scalar
reference kernel `volk_32f_sin_32f_generic` writes
`output[i] = platform_sine(input[i])` — the platform sine (the abstract
parameter `sinf`) applied element by element, with no further processing. -/
theorem generic_applies_sine_elementwise (sinf : ℚ → ℚ) (bVector aVector : ℕ → ℚ)
    (num_points i : ℕ) (h : i < num_points) :
    volk_32f_sin_32f_generic sinf bVector aVector num_points i = sinf (aVector i) := by
  simpa [volk_32f_sin_32f_generic] using
    writeLanes_at sinf aVector 0 num_points bVector i h

theorem generic_applies_sine_elementwise_witness :
    (0 < 1) ∧
      volk_32f_sin_32f_generic (fun y => y + 1) (fun _ => 0) (fun _ => 41) 1 0 = 42 :=
  ⟨by decide,
    (generic_applies_sine_elementwise (fun y => y + 1) (fun _ => 0) (fun _ => 41) 1 0
        (by decide)).trans (by norm_num)⟩

/-- C7: each vector kernel runs `floor(num_points / W)` full lane groups and
computes the trailing `num_points mod W` elements with the same scalar code
path as the reference kernel, so on every trailing index its output is
exactly the output of `volk_32f_sin_32f_generic`. -/
theorem tail_matches_generic :
    (∀ (sqrtf sinf : ℚ → ℚ) (b a : ℕ → ℚ) (n i : ℕ), n / 4 * 4 ≤ i → i < n →
        volk_32f_sin_32f_a_sse4_1 sqrtf sinf b a n i =
          volk_32f_sin_32f_generic sinf b a n i) ∧
    (∀ (sqrtf sinf : ℚ → ℚ) (b a : ℕ → ℚ) (n i : ℕ), n / 8 * 8 ≤ i → i < n →
        volk_32f_sin_32f_a_avx2 sqrtf sinf b a n i =
          volk_32f_sin_32f_generic sinf b a n i) ∧
    (∀ (sqrtf sinf : ℚ → ℚ) (b a : ℕ → ℚ) (n i : ℕ), n / 8 * 8 ≤ i → i < n →
        volk_32f_sin_32f_a_avx2_fma sqrtf sinf b a n i =
          volk_32f_sin_32f_generic sinf b a n i) := by
  refine ⟨fun sqrtf sinf b a n i h1 h2 => ?_, fun sqrtf sinf b a n i h1 h2 => ?_,
    fun sqrtf sinf b a n i h1 h2 => ?_⟩
  · exact (writeLanes_tail sinf a (n / 4 * 4) n
        (vecLoop 4 (sinLane sqrtf) a (n / 4) b) i h1 h2).trans
      (writeLanes_tail sinf a 0 n b i (Nat.zero_le i) h2).symm
  · exact (writeLanes_tail sinf a (n / 8 * 8) n
        (vecLoop 8 (sinLane sqrtf) a (n / 8) b) i h1 h2).trans
      (writeLanes_tail sinf a 0 n b i (Nat.zero_le i) h2).symm
  · exact (writeLanes_tail sinf a (n / 8 * 8) n
        (vecLoop 8 (sinLaneFma sqrtf) a (n / 8) b) i h1 h2).trans
      (writeLanes_tail sinf a 0 n b i (Nat.zero_le i) h2).symm

theorem tail_matches_generic_witness :
    (5 / 4 * 4 ≤ 4 ∧ 4 < 5 ∧ 9 / 8 * 8 ≤ 8 ∧ 8 < 9) ∧
      volk_32f_sin_32f_a_sse4_1 (fun y => y) (fun y => y + 1) (fun _ => 0) (fun _ => 3) 5 4 =
        volk_32f_sin_32f_generic (fun y => y + 1) (fun _ => 0) (fun _ => 3) 5 4 ∧
      volk_32f_sin_32f_a_avx2 (fun y => y) (fun y => y + 1) (fun _ => 0) (fun _ => 3) 9 8 =
        volk_32f_sin_32f_generic (fun y => y + 1) (fun _ => 0) (fun _ => 3) 9 8 ∧
      volk_32f_sin_32f_a_avx2_fma (fun y => y) (fun y => y + 1) (fun _ => 0) (fun _ => 3) 9 8 =
        volk_32f_sin_32f_generic (fun y => y + 1) (fun _ => 0) (fun _ => 3) 9 8 :=
  ⟨by decide,
    tail_matches_generic.1 _ _ _ _ 5 4 (by decide) (by decide),
    tail_matches_generic.2.1 _ _ _ _ 9 8 (by decide) (by decide),
    tail_matches_generic.2.2 _ _ _ _ 9 8 (by decide) (by decide)⟩

/-- C5: for every lane input `x`, the range reduction first forms the absolute
value `|x|` (via the mask-and-subtract of line 268), takes
`q0 = ⌊|x| * m4pi⌋` with the kernel's constant `m4pi = 1.273239545` (the
single-precision value of 4/π), forms the odd-rounded index
`r = q0 + (q0 & 1)`, and obtains the reduced angle by two separate
subtractions of `r * 0.78515625` and then `r * 0.241876e-3` from `|x|`. -/
theorem range_reduction_steps (x : ℚ) :
    absStep x = |x| ∧
    q0 x = ⌊|x| * m4pi⌋ ∧
    rIdx x = q0 x + Int.land (q0 x) 1 ∧
    reduced x = (|x| - (rIdx x : ℚ) * pio4A) - (rIdx x : ℚ) * pio4B := by
  have habs : absStep x = |x| := by
    simp only [absStep]
    rcases lt_or_le x 0 with h | h
    · rw [if_pos h, abs_of_neg h]; ring
    · rw [if_neg (not_lt.mpr h), abs_of_nonneg h]; ring
  refine ⟨habs, ?_, rfl, ?_⟩
  · simp only [q0, habs]
  · simp only [reduced, habs]

/-- C4: the first fix-up step is a branchless blend that replaces
`sine_reduced` by `cosine_reduced` exactly on the lanes where bit 1 of
`(q+1)` is set: in exact arithmetic, `sine + ((cosine - sine) AND mask)`
equals `cosine` where the mask is set and `sine` elsewhere. -/
theorem blend_selects_cosine_on_bit1 (sqrtf : ℚ → ℚ) (x : ℚ) :
    blendVal sqrtf x =
      if Int.land (q0 x + 1) 2 ≠ 0 then cosineReduced x else sineReduced sqrtf x := by
  simp only [blendVal, condition1]
  by_cases h : Int.land (q0 x + 1) 2 ≠ 0
  · rw [if_pos h, if_pos h]; ring
  · rw [if_neg h, if_neg h]; ring

/-- C3 counterexample: it is not the case that every lane is negated exactly
when (bit 2 of `q` is zero) XOR (`x` is negative).  At `x = 1/2` we have
`q = 0` (bit 2 zero) and `x ≥ 0`, so the claimed condition holds and would
negate the lane, but the kernel leaves the lane un-negated (and its value is
non-zero, so negation would change it). -/
theorem quadrant_negation_claim_false :
    ¬ ∀ (sqrtf : ℚ → ℚ) (x : ℚ),
        sinLane sqrtf x =
          if Xor' (Int.land (q0 x) 4 = 0) (x < 0) then -(blendVal sqrtf x)
          else blendVal sqrtf x := by
  intro h
  have hx := h (fun y => y) (1 / 2)
  have hcond1 : ¬ condition1 (1 / 2 : ℚ) := by
    simp only [condition1, q0_half]; decide
  have hcond2 : ¬ condition2 (1 / 2 : ℚ) := by
    simp only [condition2, q0_half]
    push_neg
    exact ⟨by decide, by norm_num⟩
  have hXor : Xor' (Int.land (q0 (1 / 2 : ℚ)) 4 = 0) ((1 / 2 : ℚ) < 0) := by
    rw [q0_half]
    exact Or.inl ⟨by decide, by norm_num⟩
  rw [if_pos hXor] at hx
  have hlane : sinLane (fun y => y) (1 / 2 : ℚ) = blendVal (fun y => y) (1 / 2 : ℚ) := by
    simp only [sinLane, if_neg hcond2]; ring
  have hblend : blendVal (fun y => y) (1 / 2 : ℚ) =
      (2 - tVal (1 / 2)) * tVal (1 / 2) := by
    simp only [blendVal, sineReduced, if_neg hcond1]
    ring
  have hne : blendVal (fun y => y) (1 / 2 : ℚ) ≠ 0 := by
    rw [hblend]
    simp only [tVal, reduced_half]
    norm_num [dbl, polyHorner, cp1, cp2, cp3, cp4, cp5]
  rw [hlane] at hx
  exact hne (by linarith)

/-- C3 amended: a lane is negated exactly when (bit 2 of `q` is non-zero) OR
(the original `x` was negative).  (The spec's parenthetical intent — XOR with
bit 2 *set* — is what the code's masks were built for, but `_mm_cmpneq_ps` on
two all-ones masks compares NaN with NaN, which `NEQ_UQ` evaluates as true,
so the realised condition is the inclusive OR; see `condition2`.) -/
theorem quadrant_negation_condition (sqrtf : ℚ → ℚ) (x : ℚ) :
    sinLane sqrtf x =
      if Int.land (q0 x) 4 ≠ 0 ∨ x < 0 then -(blendVal sqrtf x)
      else blendVal sqrtf x := by
  simp only [sinLane, condition2]
  by_cases h : Int.land (q0 x) 4 ≠ 0 ∨ x < 0
  · rw [if_pos h, if_pos h]; ring
  · rw [if_neg h, if_neg h]; ring

/-- C6 counterexample: the kernels' polynomial stage does not use the literal
coefficients the claim lists.  The code's literals are `0.83333333e-1`,
`0.2777778e-2`, `0.49603e-4` (and `1.0`, `0.551e-6`), not `0.0833333`,
`0.0027778`, `0.0000496`: running the claimed pipeline on the lane input
`x = 1` produces a different value of `t` than the kernel computes. -/
theorem taylor_coefficients_claim_false : tVal 1 ≠ specTVal 1 := by
  simp only [tVal, specTVal, reduced_one]
  norm_num [dbl, polyHorner, specPolyHorner, cp1, cp2, cp3, cp4, cp5]

/-- C6 amended: for every lane, after range reduction the kernel divides the
reduced angle by 8 and squares it, evaluates the degree-5 Horner polynomial
in `s²` with the code's literal coefficients
1, 0.83333333e-1, 0.2777778e-2, 0.49603e-4, 0.551e-6 (alternating signs) and
multiplies by `s²`, applies `t ← t·(4−t)` exactly three times, divides by 2,
and recovers `sine_reduced = sqrt((2−t)·t)` and `cosine_reduced = 1−t`. -/
theorem polynomial_pipeline (sqrtf : ℚ → ℚ) (x : ℚ) :
    tVal x =
      dbl (dbl (dbl
        (cp1 * ((reduced x / 8) ^ 2) - cp2 * ((reduced x / 8) ^ 2) ^ 2
          + cp3 * ((reduced x / 8) ^ 2) ^ 3 - cp4 * ((reduced x / 8) ^ 2) ^ 4
          + cp5 * ((reduced x / 8) ^ 2) ^ 5))) / 2 ∧
    sineReduced sqrtf x = sqrtf ((2 - tVal x) * tVal x) ∧
    cosineReduced x = 1 - tVal x := by
  refine ⟨?_, rfl, rfl⟩
  have hp : polyHorner ((reduced x / 8) * (reduced x / 8)) =
      cp1 * ((reduced x / 8) ^ 2) - cp2 * ((reduced x / 8) ^ 2) ^ 2
        + cp3 * ((reduced x / 8) ^ 2) ^ 3 - cp4 * ((reduced x / 8) ^ 2) ^ 4
        + cp5 * ((reduced x / 8) ^ 2) ^ 5 := by
    simp only [polyHorner]; ring
  simp only [tVal, hp]

/-- C1 (code-bug evidence): at the finite input `x = -4.0` every lane of the
vector path takes the `condition1` branch (so the result does not depend on
the abstract square root) and, because `condition2` is the inclusive OR of
(bit 2 of `q` set) and (`x < 0`) — both true here — the lane is negated.
The full-group SSE4.1 kernel therefore outputs `-(cosine_reduced) < -7/10`,
while the true sine of `-4` is positive, an error greater than 1.4, far above
the claimed 1e-6 tolerance. -/
theorem vector_lane_sign_error_at_neg_four :
    (∀ sqrtf : ℚ → ℚ, sinLane sqrtf (-4) = -(cosineReduced (-4))) ∧
    (∀ (sqrtf sinf : ℚ → ℚ) (b : ℕ → ℚ),
        volk_32f_sin_32f_a_sse4_1 sqrtf sinf b (fun _ => -4) 4 0 = -(cosineReduced (-4))) ∧
    7 / 10 < cosineReduced (-4) ∧
    (0 : ℝ) < Real.sin (-4) := by
  have hcond1 : condition1 (-4 : ℚ) := by
    simp only [condition1, q0_neg_four]; decide
  have hcond2 : condition2 (-4 : ℚ) := by
    simp only [condition2, q0_neg_four]
    exact Or.inl (by decide)
  have hlane : ∀ sqrtf : ℚ → ℚ, sinLane sqrtf (-4) = -(cosineReduced (-4)) := by
    intro sqrtf
    simp only [sinLane, blendVal, if_pos hcond1, if_pos hcond2]
    ring
  refine ⟨hlane, ?_, ?_, ?_⟩
  · intro sqrtf sinf b
    have hker : volk_32f_sin_32f_a_sse4_1 sqrtf sinf b (fun _ => (-4 : ℚ)) 4 0 =
        sinLane sqrtf (-4) := rfl
    rw [hker, hlane]
  · simp only [cosineReduced, tVal, reduced_neg_four]
    norm_num [dbl, polyHorner, cp1, cp2, cp3, cp4, cp5]
  · have ht : (0 : ℝ) < Real.sin (4 - Real.pi) :=
      Real.sin_pos_of_pos_of_lt_pi (by nlinarith [Real.pi_lt_four])
        (by nlinarith [Real.pi_gt_three])
    rw [show (4 : ℝ) - Real.pi = -(Real.pi - 4) by ring, Real.sin_neg,
      Real.sin_pi_sub] at ht
    rw [Real.sin_neg]
    linarith

/-- C8: for each instruction-set variant, the aligned and the unaligned entry
point are the same function of `(sqrtf, sinf, bVector, aVector, num_points)`:
in this model, where alignment has no observable effect, their bodies are
identical arithmetic. -/
theorem aligned_unaligned_identical :
    volk_32f_sin_32f_a_sse4_1 = volk_32f_sin_32f_u_sse4_1 ∧
    volk_32f_sin_32f_a_avx2 = volk_32f_sin_32f_u_avx2 ∧
    volk_32f_sin_32f_a_avx2_fma = volk_32f_sin_32f_u_avx2_fma :=
  ⟨rfl, rfl, rfl⟩

/-- C9: every kernel variant called with `num_points = 0` returns the output
buffer exactly as it received it: no index is written. -/
theorem zero_points_output_untouched (sqrtf sinf : ℚ → ℚ) (b a : ℕ → ℚ) :
    volk_32f_sin_32f_generic sinf b a 0 = b ∧
    volk_32f_sin_32f_a_sse4_1 sqrtf sinf b a 0 = b ∧
    volk_32f_sin_32f_u_sse4_1 sqrtf sinf b a 0 = b ∧
    volk_32f_sin_32f_a_avx2 sqrtf sinf b a 0 = b ∧
    volk_32f_sin_32f_u_avx2 sqrtf sinf b a 0 = b ∧
    volk_32f_sin_32f_a_avx2_fma sqrtf sinf b a 0 = b ∧
    volk_32f_sin_32f_u_avx2_fma sqrtf sinf b a 0 = b := by
  refine ⟨rfl, ?_, ?_, ?_, ?_, ?_, ?_⟩ <;>
    simp [volk_32f_sin_32f_a_sse4_1, volk_32f_sin_32f_u_sse4_1,
      volk_32f_sin_32f_a_avx2, volk_32f_sin_32f_u_avx2,
      volk_32f_sin_32f_a_avx2_fma, volk_32f_sin_32f_u_avx2_fma,
      writeLanes, vecLoop]

end Volk
